import Mathlib

/-!
# Verification of the roch-avatar-web response-resolution pipeline

Shallow embedding of `backend/app/routes/heygen.py` (Cache Matcher,
Sentence Chunker, brain client, OpenAI fallback, the `/chat` endpoint)
and `backend/app/routes/stream.py` (the `/stream/chat` SSE endpoint).

Python strings are modelled as Lean `String` (both `len`/`length` count
code points).  Python whitespace (`str.strip`, the regex class `\s`) is
modelled by `pySpace`; `str.lower` is modelled with `Char.toLower`
(ASCII lowering — all cache keywords are ASCII).  Environment variables
and the outcomes of the network calls are passed in explicitly through
environment records, so the request handlers become pure functions.
-/

/-- Python whitespace: the characters matched by `\s` / stripped by `str.strip`
(ASCII range; Unicode whitespace is not modelled). -/
def pySpace (c : Char) : Bool :=
  c == ' ' || c == '\t' || c == '\n' || c == '\r' || c == '\x0b' || c == '\x0c'

/-- `str.lower` on a character list (ASCII lowering). -/
def pyLowerL (l : List Char) : List Char := l.map Char.toLower

/-- `str.lower` on a string. -/
def pyLower (s : String) : String := String.mk (pyLowerL s.data)

/-- `str.strip()` on a character list: drop leading whitespace, then drop
trailing whitespace. -/
def pyStripL (l : List Char) : List Char :=
  (((l.dropWhile pySpace).reverse.dropWhile pySpace)).reverse

/-- `str.strip()` on a string. -/
def pyStrip (s : String) : String := String.mk (pyStripL s.data)

/-- Python truthiness of an `os.getenv` result (`None` and `""` are falsy). -/
def truthyStrOpt : Option String → Bool
  | none => false
  | some s => !(s == "")

/-- A character ending a sentence: the class `[.!?]` of the splitting regex. -/
def sentenceEnd (c : Char) : Bool := c == '.' || c == '!' || c == '?'

/-- Whether the last character of the accumulated piece satisfies the
lookbehind `(?<=[.!?])` of the splitting regex. -/
def sentenceEndLast (cur : List Char) : Bool :=
  match cur.getLast? with
  | some p => sentenceEnd p
  | none => false

/-- `re.split(r'(?<=[.!?])\s+', ·)`: scan the text; whenever a whitespace
character is preceded by `.`, `!` or `?`, emit the accumulated piece and
consume the maximal whitespace run (the separator).  `cur` is the piece
accumulated so far. -/
def sentSplitAux (l : List Char) (cur : List Char) : List (List Char) :=
  match l with
  | [] => [cur]
  | c :: rest =>
    if pySpace c && sentenceEndLast cur then
      cur :: sentSplitAux (rest.dropWhile pySpace) []
    else
      sentSplitAux rest (cur ++ [c])
termination_by l.length
decreasing_by
  · have h := (List.dropWhile_sublist (l := rest) pySpace).length_le
    simp only [List.length_cons]
    omega
  · simp

/-- `re.split(r'(?<=[.!?])\s+', text)` (as used on the stripped text). -/
def sentSplit (l : List Char) : List (List Char) := sentSplitAux l []

/-- The greedy packing loop of `chunk_into_sentences`:
`for sentence in sentences: if len(current_chunk) + len(sentence) < 120:
current_chunk += sentence + " " else: (flush) ...`; the final non-empty
buffer is flushed (`.strip()`-ped) at the end. -/
def chunkAux : List (List Char) → List Char → List (List Char) → List (List Char)
  | [], cur, acc => if cur = [] then acc else acc ++ [pyStripL cur]
  | s :: rest, cur, acc =>
    if cur.length + s.length < 120 then
      chunkAux rest (cur ++ s ++ [' ']) acc
    else if cur = [] then
      chunkAux rest (s ++ [' ']) acc
    else
      chunkAux rest (s ++ [' ']) (acc ++ [pyStripL cur])

/-- `chunk_into_sentences` from `heygen.py`: split the stripped text into
sentences at `(?<=[.!?])\s+` boundaries and greedily pack them into
chunks of fewer than 120 characters. -/
def chunk_into_sentences (text : String) : List String :=
  (chunkAux (sentSplit (pyStripL text.data)) [] []).map (fun l => String.mk l)

/-! ## Cached responses (`CACHED_RESPONSES`, `check_cached_response`) -/

/-- The `CACHED_RESPONSES` dict from `heygen.py`. -/
def CACHED_RESPONSES : List (String × String) :=
  [("pricing", "Our physiotherapy sessions are £75 for both assessments and follow-ups. Each session is 50 minutes. If we use specialist equipment like shockwave therapy or Class IV laser, there's an additional £45 surcharge. Remedial rehabilitation sessions are £65, and prescribing is £12.50."),
   ("hours", "We're open Monday to Friday, 8:30am to 9:00pm. We're closed on weekends and all UK bank holidays."),
   ("locations", "We have two locations. Our Alcester clinic is at Kinwarton Road, Alcester, B49 6AD. Our Redditch clinic is at 51 Bromsgrove Road, Redditch, B97 4RH."),
   ("cancellation", "We have a 24-hour cancellation policy. If you cancel with less than 24 hours notice, the full fee will be charged."),
   ("insurance", "We operate on a self-pay model. You pay upfront and you're welcome to claim back from your insurance. We don't work directly with Bupa, but many patients successfully claim from other insurers.")]

/-- Dictionary lookup `CACHED_RESPONSES[topic]` (all used keys are present). -/
def cachedLookup (topic : String) : String :=
  ((CACHED_RESPONSES.find? (fun p => p.1 == topic)).map (fun p => p.2)).getD ""

/-- Whether `pat` is an initial segment of `l`. -/
def beginsWith : List Char → List Char → Bool
  | [], _ => true
  | _ :: _, [] => false
  | p :: ps, c :: cs => p == c && beginsWith ps cs

/-- Python substring membership `pat in s` on character lists. -/
def containsSub (pat : List Char) : List Char → Bool
  | [] => beginsWith pat []
  | c :: cs => beginsWith pat (c :: cs) || containsSub pat cs

/-- `any(word in msg_lower for word in kws)`. -/
def kwHit (kws : List String) (msgLower : List Char) : Bool :=
  kws.any (fun kw => containsSub kw.data msgLower)

/-- `check_cached_response` from `heygen.py`: lower-case the message and test
the five keyword lists in declared order, first hit wins. -/
def check_cached_response (message : String) : Option String :=
  let msg_lower := pyLowerL message.data
  if kwHit ["price", "cost", "how much", "fee"] msg_lower then
    some (cachedLookup "pricing")
  else if kwHit ["hours", "open", "when are you", "opening"] msg_lower then
    some (cachedLookup "hours")
  else if kwHit ["location", "address", "where"] msg_lower then
    some (cachedLookup "locations")
  else if kwHit ["cancel", "reschedule"] msg_lower then
    some (cachedLookup "cancellation")
  else if kwHit ["insurance", "bupa", "claim"] msg_lower then
    some (cachedLookup "insurance")
  else
    none

/-! ## The `/chat` endpoint -/

/-- A value in a `meta` dictionary (`Dict[str, Any]`): enough structure for
the string and integer values the routes put there. -/
inductive MetaVal where
  | s (v : String)
  | n (v : Nat)
deriving DecidableEq

/-- A Python dict used as `meta` (insertion-ordered key/value pairs). -/
def Meta : Type := List (String × MetaVal)

instance : DecidableEq Meta := by unfold Meta; infer_instance

/-- `meta.get("source")`: the first binding of a key, if any. -/
def metaLookup (k : String) (m : Meta) : Option MetaVal :=
  ((m.find? (fun p => p.1 == k)).map (fun p => p.2))

/-- A `safety` dict (`Dict[str, bool]`). -/
def SafetyDict : Type := List (String × Bool)

instance : DecidableEq SafetyDict := by unfold SafetyDict; infer_instance

/-- The default safety dict `{"is_emergency": False, "refuse_diagnosis": False}`. -/
def defaultSafety : SafetyDict :=
  [("is_emergency", false), ("refuse_diagnosis", false)]

/-- One message of the history. -/
structure Message where
  role : String
  content : String
deriving DecidableEq

/-- The `ChatRequest` body: mode, message, history, optional session id. -/
structure ChatRequest where
  mode : String
  message : String
  history : List Message
  session_id : Option String
deriving DecidableEq

/-- The `ChatResponse` model returned by `/chat`. -/
structure ChatResponse where
  response : String
  chunks : List String
  safety : SafetyDict
  meta : Meta
deriving DecidableEq

/-- An `HTTPException(status_code, detail)`. -/
structure HTTPError where
  status : Nat
  detail : String
deriving DecidableEq

/-- The JSON body returned by the brain endpoint on success: the values of
its `"response"`, `"safety"` and `"meta"` keys (each possibly absent). -/
structure BrainReply where
  response : Option String
  safety : Option SafetyDict
  meta : Option Meta
deriving DecidableEq

/-- Outcome of the HTTP POST to the brain endpoint: either an
`httpx.HTTPError` (network failure or non-2xx via `raise_for_status`),
or a decoded JSON reply. -/
inductive BrainOutcome where
  | httpErr (msg : String)
  | ok (reply : BrainReply)
deriving DecidableEq

/-- The environment of one `/chat` request: the environment variables read
by the handler, and the outcomes the external calls would produce. -/
structure ChatEnv where
  /-- `os.getenv("BRAIN_API_URL")`. -/
  brain_api_url : Option String
  /-- `os.getenv("USE_OPENAI_FALLBACK")` (the handler applies default `"false"`). -/
  use_openai_fallback : Option String
  /-- What the brain call would return for this request. -/
  brain_outcome : BrainOutcome
  /-- Whether `app/prompts/{mode}_avatar.txt` exists. -/
  prompt_exists : String → Bool
  /-- What the OpenAI completion call would return (error message or text). -/
  openai_outcome : Except String String

/-- `call_brain_api` from `heygen.py`: 500 if `BRAIN_API_URL` is unset/empty,
502 `"Brain API error: ..."` on `httpx.HTTPError`, else the decoded JSON. -/
def call_brain_api (env : ChatEnv) : Except HTTPError BrainReply :=
  if truthyStrOpt env.brain_api_url = false then
    Except.error { status := 500, detail := "BRAIN_API_URL not set" }
  else
    match env.brain_outcome with
    | BrainOutcome.httpErr m =>
        Except.error { status := 502, detail := "Brain API error: " ++ m }
    | BrainOutcome.ok r => Except.ok r

/-- `fallback_openai` from `heygen.py`: 500 if the mode's prompt file is
missing, 500 `"OpenAI error: ..."` if the completion call raises, else the
completion text. -/
def fallback_openai (env : ChatEnv) (mode : String) : Except HTTPError String :=
  if env.prompt_exists mode = false then
    Except.error { status := 500, detail := "Prompt not found: " ++ mode ++ "_avatar.txt" }
  else
    match env.openai_outcome with
    | Except.error m => Except.error { status := 500, detail := "OpenAI error: " ++ m }
    | Except.ok t => Except.ok t

/-- An exception escaping the body of the `try:` block in `chat`: either an
`HTTPException` raised by a helper, or the `KeyError` from
`brain_response["response"]`. -/
inductive ChatExc where
  | http (e : HTTPError)
  | keyError (k : String)
deriving DecidableEq

/-- `str(e)` for the exceptions of `ChatExc`: starlette's
`HTTPException.__str__` is `f"{self.status_code}: {self.detail}"`, and
`str(KeyError(k))` is `repr(k)`. -/
def strExc : ChatExc → String
  | ChatExc.http e => toString e.status ++ ": " ++ e.detail
  | ChatExc.keyError k => "'" ++ k ++ "'"

/-- The `ChatResponse` built on a cache hit. -/
def cacheChatResponse (cached : String) : ChatResponse :=
  { response := cached
    chunks := chunk_into_sentences cached
    safety := defaultSafety
    meta := [("source", MetaVal.s "cache"), ("latency_ms", MetaVal.n 0)] }

/-- The body of the `try:` block of the `chat` handler in `heygen.py`:
cache check, then brain-or-fallback routing, then chunking. -/
def chatBody (env : ChatEnv) (req : ChatRequest) : Except ChatExc ChatResponse :=
  let cached := check_cached_response req.message
  if truthyStrOpt cached then
    Except.ok (cacheChatResponse (cached.getD ""))
  else if truthyStrOpt env.brain_api_url
      && !(pyLower (env.use_openai_fallback.getD "false") == "true") then
    match call_brain_api env with
    | Except.error e => Except.error (ChatExc.http e)
    | Except.ok reply =>
      match reply.response with
      | none => Except.error (ChatExc.keyError "response")
      | some text =>
        Except.ok
          { response := text
            chunks := chunk_into_sentences text
            safety := reply.safety.getD defaultSafety
            meta := reply.meta.getD [] }
  else
    match fallback_openai env req.mode with
    | Except.error e => Except.error (ChatExc.http e)
    | Except.ok text =>
      Except.ok
        { response := text
          chunks := chunk_into_sentences text
          safety := defaultSafety
          meta := [("source", MetaVal.s "openai_fallback")] }

/-- The `chat` handler: the whole body runs inside
`try: ... except Exception as e: raise HTTPException(500, f"Chat error: {str(e)}")`.
`HTTPException` subclasses `Exception`, so exceptions raised inside the
body — the 502 from `call_brain_api` included — are re-wrapped as 500. -/
def chat (env : ChatEnv) (req : ChatRequest) : Except HTTPError ChatResponse :=
  match chatBody env req with
  | Except.ok r => Except.ok r
  | Except.error exc =>
      Except.error { status := 500, detail := "Chat error: " ++ strExc exc }

/-! ## The `/stream/chat` endpoint -/

/-- The `StreamRequest` body. -/
structure StreamRequest where
  mode : String
  message : String
  history : List Message
  session_id : Option String
deriving DecidableEq

/-- The environment of one `/stream/chat` request. -/
structure StreamEnv where
  /-- `os.getenv("BRAIN_API_URL")`. -/
  brain_api_url : Option String
  /-- `os.getenv("ENABLE_STREAMING")` (the handler applies default `"false"`). -/
  enable_streaming : Option String
  /-- On the enabled path the generator's `try:` block begins with
  `from app.routes.heygen import call_brain_api_stream`; `heygen.py`
  defines no such name, so this import raises `ImportError`.  This field
  carries `str(e)` of that exception — its text ends with the
  deployment-dependent file path of `heygen.py`, so the model keeps it as
  an environment datum rather than a fixed string. -/
  import_error_message : String
deriving DecidableEq

/-- The `ENABLE_STREAMING` flag as computed by the handler:
`os.getenv("ENABLE_STREAMING", "false").lower() == "true"`. -/
def streamingEnabled (env : StreamEnv) : Bool :=
  pyLower (env.enable_streaming.getD "false") == "true"

/-- One SSE event emitted by `/stream/chat`.  Each constructor stands for
one exact JSON payload shape produced by the generator in `stream.py`:
`sentence t` is `{"type": "sentence", "text": t}`, `done` is
`{"type": "done"}`, `errorTyped m` is `{"type": "error", "message": m}`,
and `errorLegacy m` is the key-only shape `{"error": m}` emitted on the
disabled path. -/
inductive SSEvent where
  | sentence (text : String)
  | done
  | errorTyped (message : String)
  | errorLegacy (message : String)
deriving DecidableEq

/-- Whether an event's payload has the `{"type": "error", "message": ...}`
shape the spec prescribes for error events. -/
def isTypedErrorEvent : SSEvent → Bool
  | SSEvent.errorTyped _ => true
  | _ => false

/-- Whether an event is the `{"type": "done"}` event. -/
def isDoneEvent : SSEvent → Bool
  | SSEvent.done => true
  | _ => false

/-- Whether an event is a `{"type": "sentence", ...}` event. -/
def isSentenceEvent : SSEvent → Bool
  | SSEvent.sentence _ => true
  | _ => false

/-- The wire form `f"data: {json.dumps(payload)}\n\n"` of each event
(`json.dumps` with its default separators; payload strings are assumed to
need no JSON escaping, which holds for every string this file renders). -/
def renderEvent : SSEvent → String
  | SSEvent.sentence t =>
      "data: \x7b\"type\": \"sentence\", \"text\": \"" ++ t ++ "\"\x7d\n\n"
  | SSEvent.done => "data: \x7b\"type\": \"done\"\x7d\n\n"
  | SSEvent.errorTyped m =>
      "data: \x7b\"type\": \"error\", \"message\": \"" ++ m ++ "\"\x7d\n\n"
  | SSEvent.errorLegacy m => "data: \x7b\"error\": \"" ++ m ++ "\"\x7d\n\n"

/-- The generator of the `stream_chat` handler in `stream.py`: if streaming
is disabled or no brain URL is configured, yield the single legacy error
event and return.  Otherwise the body of the `try:` block first executes
`from app.routes.heygen import call_brain_api_stream`; `heygen.py`
defines no function of that name, so the import raises `ImportError`, the
`except Exception` clause yields one `{"type": "error", "message": str(e)}`
event, and the generator ends — the loop that would forward `sentence`
events and the final `done` event are unreachable. -/
def stream_chat (env : StreamEnv) (_req : StreamRequest) : List SSEvent :=
  if !(streamingEnabled env) || !(truthyStrOpt env.brain_api_url) then
    [SSEvent.errorLegacy "Streaming not enabled"]
  else
    [SSEvent.errorTyped env.import_error_message]

/-! ## Word decomposition and boundary freedom (spec-side notions) -/

/-- The maximal whitespace-free words of a character list, in order: the
word sequence that "collapsing whitespace" preserves. -/
def words : List Char → List (List Char)
  | [] => []
  | c :: rest =>
    if pySpace c then words rest
    else
      match rest with
      | [] => [[c]]
      | d :: _ =>
        if pySpace d then [c] :: words rest
        else
          match words rest with
          | [] => [[c]]
          | w :: t => (c :: w) :: t

/-- Concatenation of the words of each list in a list of lists. -/
def concatWords : List (List Char) → List (List Char)
  | [] => []
  | x :: r => words x ++ concatWords r

/-- Joining character lists with single spaces. -/
def intercSpace : List (List Char) → List Char
  | [] => []
  | [x] => x
  | x :: y :: r => x ++ ' ' :: intercSpace (y :: r)

/-- The spec-side operation "concatenating the chunks joined by a single
space" on strings. -/
def joinSpaceStr : List String → String
  | [] => ""
  | [c] => c
  | c :: r => c ++ " " ++ joinSpaceStr r

/-- The spec-side operation "collapsing whitespace": replace every maximal
whitespace run by one space and trim the ends, i.e. join the words with
single spaces. -/
def collapse_ws (s : String) : String := String.mk (intercSpace (words s.data))

/-- No `.`, `!` or `?` immediately followed by whitespace anywhere: the
text contains no internal sentence boundary of the splitting regex. -/
def boundaryFree : List Char → Bool
  | a :: b :: rest => !(sentenceEnd a && pySpace b) && boundaryFree (b :: rest)
  | _ => true

/-! ## Helper lemmas about the `/chat` model -/

/-- A successful `call_brain_api` means the HTTP call itself succeeded. -/
lemma call_brain_api_ok {env : ChatEnv} {reply : BrainReply}
    (h : call_brain_api env = Except.ok reply) :
    env.brain_outcome = BrainOutcome.ok reply := by
  unfold call_brain_api at h
  split at h
  · exact absurd h (by simp)
  · split at h
    · exact absurd h (by simp)
    · rename_i r hr
      rw [hr]
      injection h with h
      rw [h]

/-- A cache hit with a non-empty canonical answer short-circuits `chat`. -/
lemma chat_cache_hit (env : ChatEnv) (req : ChatRequest) (c : String)
    (hc : check_cached_response req.message = some c)
    (hne : (c == "") = false) :
    chat env req = Except.ok (cacheChatResponse c) := by
  unfold chat chatBody
  rw [hc]
  simp [truthyStrOpt, hne]

/-- A message whose lowering contains a pricing keyword hits the pricing
entry of the cache, whatever else it contains. -/
lemma check_cached_response_pricing (msg : String)
    (hp : kwHit ["price", "cost", "how much", "fee"] (pyLowerL msg.data) = true) :
    check_cached_response msg = some (cachedLookup "pricing") := by
  unfold check_cached_response
  simp only [hp, if_true]

/-- The pricing canonical answer is not the empty string. -/
lemma pricing_ne_empty : (cachedLookup "pricing" == "") = false := by decide

/-! ## C1: brain failure surfaces as 500, not 502 (code bug) -/

/-- C1 (code evaluated at the failing input): the spec claims a brain-call
network/HTTP failure is surfaced as a 502-class response; in the code the
blanket `except Exception` of the `chat` handler catches the
`HTTPException(502)` raised by `call_brain_api` and re-raises it as a
500 whose detail embeds the original one, so the caller sees a 500-class
response. -/
theorem c1_brain_failure_surfaces_as_500 :
    chat
      { brain_api_url := some "http://brain.example"
        use_openai_fallback := none
        brain_outcome := BrainOutcome.httpErr "timeout"
        prompt_exists := fun _ => true
        openai_outcome := Except.ok "unused" }
      { mode := "clinic", message := "Good afternoon", history := [], session_id := none }
      = Except.error { status := 500, detail := "Chat error: 502: Brain API error: timeout" } := by
  rfl

/-! ## C7: priority order of the cache matcher -/

/-- C7: a message whose lowering contains both a pricing keyword and an
hours keyword resolves to the pricing cached answer (topics are tested in
declared order, first match wins), both in `check_cached_response` and
through the whole `chat` handler. -/
theorem c7_pricing_beats_hours (msg : String)
    (hp : kwHit ["price", "cost", "how much", "fee"] (pyLowerL msg.data) = true)
    (_hh : kwHit ["hours", "open", "when are you", "opening"] (pyLowerL msg.data) = true) :
    check_cached_response msg = some (cachedLookup "pricing") ∧
    check_cached_response msg ≠ some (cachedLookup "hours") ∧
    ∀ (env : ChatEnv) (mode : String) (hist : List Message) (sid : Option String),
      chat env { mode := mode, message := msg, history := hist, session_id := sid }
        = Except.ok (cacheChatResponse (cachedLookup "pricing")) := by
  have h1 := check_cached_response_pricing msg hp
  refine ⟨h1, ?_, ?_⟩
  · rw [h1]
    intro h
    injection h with h
    exact absurd h (by decide)
  · intro env mode hist sid
    exact chat_cache_hit env _ _ h1 pricing_ne_empty

/-- C7 witness: the spec's own example message. -/
theorem c7_witness :
    kwHit ["price", "cost", "how much", "fee"]
        (pyLowerL "what's the cost and your hours?".data) = true ∧
    kwHit ["hours", "open", "when are you", "opening"]
        (pyLowerL "what's the cost and your hours?".data) = true ∧
    check_cached_response "what's the cost and your hours?" = some (cachedLookup "pricing") :=
  ⟨by decide, by decide,
    (c7_pricing_beats_hours "what's the cost and your hours?" (by decide) (by decide)).1⟩

/-! ## C8: pricing messages short-circuit to the cache -/

/-- C8: for every request whose lowered message contains a pricing keyword,
whatever the mode, history, session id, environment and upstream outcomes,
`chat` returns the fixed pricing answer with `meta.source = "cache"`,
`meta.latency_ms = 0` and defaulted safety flags, never reaching the brain
or the fallback. -/
theorem c8_pricing_cache_hit (env : ChatEnv) (req : ChatRequest)
    (hp : kwHit ["price", "cost", "how much", "fee"] (pyLowerL req.message.data) = true) :
    chat env req = Except.ok
      { response := cachedLookup "pricing"
        chunks := chunk_into_sentences (cachedLookup "pricing")
        safety := [("is_emergency", false), ("refuse_diagnosis", false)]
        meta := [("source", MetaVal.s "cache"), ("latency_ms", MetaVal.n 0)] } :=
  chat_cache_hit env req _ (check_cached_response_pricing req.message hp) pricing_ne_empty

/-- C8 witness: the spec's scenario message, with a brain configured that
would answer differently — the cache still wins. -/
theorem c8_witness :
    kwHit ["price", "cost", "how much", "fee"]
        (pyLowerL "How much does a session cost?".data) = true ∧
    chat
      { brain_api_url := some "http://brain.example"
        use_openai_fallback := none
        brain_outcome := BrainOutcome.ok { response := some "brain answer", safety := none, meta := none }
        prompt_exists := fun _ => true
        openai_outcome := Except.ok "fallback answer" }
      { mode := "rehab", message := "How much does a session cost?"
        history := [{ role := "user", content := "hi" }], session_id := some "s1" }
      = Except.ok
        { response := cachedLookup "pricing"
          chunks := chunk_into_sentences (cachedLookup "pricing")
          safety := [("is_emergency", false), ("refuse_diagnosis", false)]
          meta := [("source", MetaVal.s "cache"), ("latency_ms", MetaVal.n 0)] } :=
  ⟨by decide, c8_pricing_cache_hit _ _ (by decide)⟩

/-! ## C10: brain reply without a "response" key fails atomically -/

/-- C10: on the brain path, a JSON reply lacking the `"response"` key makes
`chat` fail with a 500-class error carrying the stringified `KeyError`
(`"Chat error: 'response'"`); no `ChatResponse` is returned at all. -/
theorem c10_missing_response_key (env : ChatEnv) (req : ChatRequest)
    (reply : BrainReply)
    (hc : truthyStrOpt (check_cached_response req.message) = false)
    (hb : truthyStrOpt env.brain_api_url = true)
    (hf : (pyLower (env.use_openai_fallback.getD "false") == "true") = false)
    (ho : env.brain_outcome = BrainOutcome.ok reply)
    (hr : reply.response = none) :
    chat env req = Except.error { status := 500, detail := "Chat error: 'response'" } := by
  unfold chat chatBody call_brain_api
  simp only [hc, hb, hf, ho, hr]
  simp [strExc, hr]

/-- C10 witness: a concrete request on which the brain answers `{}`. -/
theorem c10_witness :
    truthyStrOpt (check_cached_response "Good morning to you") = false ∧
    chat
      { brain_api_url := some "http://brain.example"
        use_openai_fallback := none
        brain_outcome := BrainOutcome.ok { response := none, safety := none, meta := none }
        prompt_exists := fun _ => true
        openai_outcome := Except.ok "unused" }
      { mode := "clinic", message := "Good morning to you", history := [], session_id := none }
      = Except.error { status := 500, detail := "Chat error: 'response'" } :=
  ⟨by decide,
    c10_missing_response_key _ _ { response := none, safety := none, meta := none }
      (by decide) (by decide) (by decide) rfl rfl⟩

/-! ## C2: `meta.source` (corrected) -/

/-- C2 counterexample: a successful brain-path resolution whose reply has no
`meta` key yields a `ChatResponse` whose `meta` is the empty dict — no
`source` tag at all — refuting “`meta.source` is always set and is one of
cache/brain/fallback”. -/
theorem c2_counterexample :
    chat
      { brain_api_url := some "http://brain.example"
        use_openai_fallback := none
        brain_outcome := BrainOutcome.ok { response := some "Hello there.", safety := none, meta := none }
        prompt_exists := fun _ => true
        openai_outcome := Except.ok "unused" }
      { mode := "clinic", message := "Good morning", history := [], session_id := none }
      = Except.ok
        { response := "Hello there."
          chunks := chunk_into_sentences "Hello there."
          safety := defaultSafety
          meta := [] } ∧
    metaLookup "source" [] = none := by
  exact ⟨rfl, rfl⟩

/-- C2 (amended): every successful `chat` resolution carries either the
cache meta `{source: "cache", latency_ms: 0}`, or the fallback meta
`{source: "openai_fallback"}` (a tag outside the spec's cache/brain/fallback
set), or — on the brain path — the brain's own `meta` dict passed through
verbatim (defaulted to `{}`), in which case `source` is set only if the
brain supplied it. -/
theorem c2_meta_source_cases (env : ChatEnv) (req : ChatRequest) (r : ChatResponse)
    (h : chat env req = Except.ok r) :
    r.meta = [("source", MetaVal.s "cache"), ("latency_ms", MetaVal.n 0)] ∨
    r.meta = [("source", MetaVal.s "openai_fallback")] ∨
    ∃ reply, env.brain_outcome = BrainOutcome.ok reply ∧ r.meta = reply.meta.getD [] := by
  unfold chat at h
  cases hb : chatBody env req with
  | error e => rw [hb] at h; exact absurd h (by simp)
  | ok v =>
    rw [hb] at h
    injection h with h
    subst h
    simp only [chatBody] at hb
    split at hb
    · injection hb with hb
      subst hb
      left
      rfl
    · split at hb
      · split at hb
        · exact absurd hb (by simp)
        · split at hb
          · exact absurd hb (by simp)
          · injection hb with hb
            subst hb
            right; right
            exact ⟨_, call_brain_api_ok (by assumption), rfl⟩
      · split at hb
        · exact absurd hb (by simp)
        · injection hb with hb
          subst hb
          right; left
          rfl

/-- C2 witness: the amended claim instantiated on a cache hit. -/
theorem c2_witness :
    chat
      { brain_api_url := none
        use_openai_fallback := none
        brain_outcome := BrainOutcome.httpErr "unused"
        prompt_exists := fun _ => true
        openai_outcome := Except.ok "unused" }
      { mode := "clinic", message := "How much is it?", history := [], session_id := none }
      = Except.ok (cacheChatResponse (cachedLookup "pricing")) ∧
    ((cacheChatResponse (cachedLookup "pricing")).meta
        = [("source", MetaVal.s "cache"), ("latency_ms", MetaVal.n 0)] ∨
      (cacheChatResponse (cachedLookup "pricing")).meta
        = [("source", MetaVal.s "openai_fallback")] ∨
      ∃ reply,
        ({ brain_api_url := none
           use_openai_fallback := none
           brain_outcome := BrainOutcome.httpErr "unused"
           prompt_exists := fun _ => true
           openai_outcome := Except.ok "unused" } : ChatEnv).brain_outcome
          = BrainOutcome.ok reply ∧
        (cacheChatResponse (cachedLookup "pricing")).meta = reply.meta.getD []) := by
  have h := chat_cache_hit
      { brain_api_url := none
        use_openai_fallback := none
        brain_outcome := BrainOutcome.httpErr "unused"
        prompt_exists := fun _ => true
        openai_outcome := Except.ok "unused" }
      { mode := "clinic", message := "How much is it?", history := [], session_id := none }
      (cachedLookup "pricing") (check_cached_response_pricing _ (by decide)) pricing_ne_empty
  exact ⟨h, c2_meta_source_cases _ _ _ h⟩

/-! ## C5: the disabled-streaming path (corrected) -/

/-- C5 counterexample: with streaming disabled the stream is indeed exactly
one event, but its JSON payload is the legacy `{"error": message}` shape
(`json.dumps({'error': 'Streaming not enabled'})` in `stream.py`), not the
`{"type": "error", "message": ...}` shape the claim prescribes. -/
theorem c5_counterexample :
    stream_chat
      { brain_api_url := some "http://brain.example", enable_streaming := some "false"
        import_error_message :=
          "cannot import name 'call_brain_api_stream' from 'app.routes.heygen'" }
      { mode := "clinic", message := "Hello", history := [], session_id := none }
      = [SSEvent.errorLegacy "Streaming not enabled"] ∧
    isTypedErrorEvent (SSEvent.errorLegacy "Streaming not enabled") = false ∧
    renderEvent (SSEvent.errorLegacy "Streaming not enabled")
      = "data: \x7b\"error\": \"Streaming not enabled\"\x7d\n\n" := by
  exact ⟨rfl, rfl, rfl⟩

/-- C5 (amended): for every request made while streaming is disabled or no
brain endpoint is configured, the response stream consists of exactly one
event, whose JSON payload is `{"error": "Streaming not enabled"}` (not the
`{type: "error", message}` shape), after which the stream closes. -/
theorem c5_disabled_single_error (env : StreamEnv) (req : StreamRequest)
    (h : streamingEnabled env = false ∨ truthyStrOpt env.brain_api_url = false) :
    stream_chat env req = [SSEvent.errorLegacy "Streaming not enabled"] := by
  unfold stream_chat
  rcases h with h | h <;> simp [h]

/-- C5 witness: a request with no brain URL configured. -/
theorem c5_witness :
    truthyStrOpt
      (StreamEnv.brain_api_url
        { brain_api_url := none, enable_streaming := some "true"
          import_error_message :=
            "cannot import name 'call_brain_api_stream' from 'app.routes.heygen'" })
      = false ∧
    stream_chat
      { brain_api_url := none, enable_streaming := some "true"
        import_error_message :=
          "cannot import name 'call_brain_api_stream' from 'app.routes.heygen'" }
      { mode := "rehab", message := "Hi", history := [], session_id := none }
      = [SSEvent.errorLegacy "Streaming not enabled"] :=
  ⟨rfl, c5_disabled_single_error _ _ (Or.inr rfl)⟩

/-! ## C4: the enabled streaming path cannot stream (code bug) -/

/-- C4 (code evaluated at the failing input): the claim — like spec §4.4
and `stream.py`'s own docstring, "Streams sentences as they're generated
for lower latency" — says the enabled path forwards the brain's frames as
`sentence` events in order and ends with exactly one `done` event.  But
`from app.routes.heygen import call_brain_api_stream` names a function
`heygen.py` does not define, so with streaming enabled and a brain URL
configured the generator raises `ImportError` at once and the stream is a
single `{"type": "error"}` event carrying the `ImportError` text: no
`sentence` event and no `done` event is ever emitted. -/
theorem c4_enabled_path_import_error :
    stream_chat
      { brain_api_url := some "http://brain.example"
        enable_streaming := some "true"
        import_error_message :=
          "cannot import name 'call_brain_api_stream' from 'app.routes.heygen'" }
      { mode := "clinic", message := "Tell me more", history := [], session_id := none }
      = [SSEvent.errorTyped
          "cannot import name 'call_brain_api_stream' from 'app.routes.heygen'"] ∧
    (stream_chat
      { brain_api_url := some "http://brain.example"
        enable_streaming := some "true"
        import_error_message :=
          "cannot import name 'call_brain_api_stream' from 'app.routes.heygen'" }
      { mode := "clinic", message := "Tell me more", history := [], session_id := none }
      ).filter isSentenceEvent = [] ∧
    (stream_chat
      { brain_api_url := some "http://brain.example"
        enable_streaming := some "true"
        import_error_message :=
          "cannot import name 'call_brain_api_stream' from 'app.routes.heygen'" }
      { mode := "clinic", message := "Tell me more", history := [], session_id := none }
      ).filter isDoneEvent = [] := by
  exact ⟨rfl, rfl, rfl⟩

/-! ## Lemmas about `words` -/

/-- A leading whitespace character does not change the word decomposition. -/
lemma words_cons_space {c : Char} (h : pySpace c = true) (l : List Char) :
    words (c :: l) = words l := by
  cases l <;> simp [words, h]

/-- A list with a non-whitespace head has at least one word. -/
lemma words_ne_nil {c : Char} (h : pySpace c = false) (l : List Char) :
    words (c :: l) ≠ [] := by
  cases l with
  | nil => simp [words, h]
  | cons d t =>
    by_cases hd : pySpace d = true
    · simp [words, h, hd]
    · simp only [words, h, hd, Bool.false_eq_true, if_false]
      split <;> simp

/-- A list of whitespace characters has no words. -/
lemma words_allspace : ∀ {l : List Char}, (∀ x ∈ l, pySpace x = true) → words l = [] := by
  intro l
  induction l with
  | nil => intro _; rfl
  | cons c t ih =>
    intro h
    rw [words_cons_space (h c (by simp))]
    exact ih (fun x hx => h x (by simp [hx]))

/-- Unfolding `words` when the first two characters are non-whitespace. -/
lemma words_cons_cons_nonspace {c e : Char} (hc : pySpace c = false)
    (he : pySpace e = false) (l : List Char) :
    words (c :: e :: l)
      = match words (e :: l) with
        | [] => [[c]]
        | w :: t => (c :: w) :: t := by
  simp only [words, hc, he, Bool.false_eq_true, if_false]

/-- Unfolding `words` when the first character is non-whitespace and the
second is whitespace. -/
lemma words_cons_space_snd {c e : Char} (hc : pySpace c = false)
    (he : pySpace e = true) (l : List Char) :
    words (c :: e :: l) = [c] :: words (e :: l) := by
  simp only [words, hc, he, Bool.false_eq_true, if_false, if_true]

/-- Inserting one whitespace character splits the word decomposition. -/
lemma words_append_space {c₀ : Char} (hc : pySpace c₀ = true) :
    ∀ (a b : List Char), words (a ++ c₀ :: b) = words a ++ words b := by
  intro a
  induction a with
  | nil =>
    intro b
    rw [List.nil_append, words_cons_space hc]
    rfl
  | cons c a' ih =>
    intro b
    cases h : pySpace c with
    | true => rw [List.cons_append, words_cons_space h, words_cons_space h, ih]
    | false =>
      cases a' with
      | nil =>
        simp [words, h, hc, words_cons_space hc]
      | cons e a'' =>
        cases he : pySpace e with
        | true =>
          have ihe := ih b
          rw [List.cons_append] at ihe
          rw [List.cons_append, List.cons_append, words_cons_space_snd h he,
              words_cons_space_snd h he, ihe]
          rfl
        | false =>
          have hne := words_ne_nil he a''
          obtain ⟨w, t, hw⟩ : ∃ w t, words (e :: a'') = w :: t := by
            cases hq : words (e :: a'') with
            | nil => exact absurd hq hne
            | cons w t => exact ⟨w, t, rfl⟩
          have ihe := ih b
          rw [List.cons_append] at ihe
          rw [List.cons_append, List.cons_append,
              words_cons_cons_nonspace h he, words_cons_cons_nonspace h he,
              ihe, hw]
          rfl

/-- Appending trailing whitespace does not change the word decomposition. -/
lemma words_append_allspace (ws : List Char) (hws : ∀ x ∈ ws, pySpace x = true) :
    ∀ (m : List Char), words (m ++ ws) = words m := by
  intro m
  induction m with
  | nil => simpa using words_allspace hws
  | cons c m' ih =>
    cases h : pySpace c with
    | true => rw [List.cons_append, words_cons_space h, words_cons_space h, ih]
    | false =>
      cases m' with
      | nil =>
        cases ws with
        | nil => rfl
        | cons s ws' =>
          have hs : pySpace s = true := hws s (by simp)
          have h2 : words ws' = [] :=
            words_allspace (fun x hx => hws x (by simp [hx]))
          rw [List.singleton_append, words_cons_space_snd h hs,
              words_cons_space hs, h2]
          simp [words, h]
      | cons e m'' =>
        have ihe := ih
        rw [List.cons_append] at ihe
        cases he : pySpace e with
        | true =>
          rw [List.cons_append, List.cons_append, words_cons_space_snd h he,
              words_cons_space_snd h he, ihe]
        | false =>
          rw [List.cons_append, List.cons_append,
              words_cons_cons_nonspace h he, words_cons_cons_nonspace h he, ihe]

/-- `words` of the empty list. -/
lemma words_nil : words [] = [] := rfl

/-- Dropping leading whitespace does not change the word decomposition. -/
lemma words_dropWhile_space : ∀ (l : List Char), words (l.dropWhile pySpace) = words l := by
  intro l
  induction l with
  | nil => rfl
  | cons c t ih =>
    cases h : pySpace c with
    | true => rw [List.dropWhile_cons_of_pos h, ih, words_cons_space h]
    | false => rw [List.dropWhile_cons_of_neg (by simp [h])]

/-- Stripping does not change the word decomposition. -/
lemma words_pyStripL (l : List Char) : words (pyStripL l) = words l := by
  unfold pyStripL
  set m := l.dropWhile pySpace with hm
  have hdecomp : m = (m.reverse.dropWhile pySpace).reverse
      ++ (m.reverse.takeWhile pySpace).reverse := by
    have h1 : m.reverse.takeWhile pySpace ++ m.reverse.dropWhile pySpace = m.reverse :=
      List.takeWhile_append_dropWhile pySpace m.reverse
    have h2 := congrArg List.reverse h1
    rw [List.reverse_append, List.reverse_reverse] at h2
    exact h2.symm
  have hws : ∀ x ∈ (m.reverse.takeWhile pySpace).reverse, pySpace x = true := by
    intro x hx
    rw [List.mem_reverse] at hx
    exact List.mem_takeWhile_imp hx
  calc words ((m.reverse.dropWhile pySpace).reverse)
      = words ((m.reverse.dropWhile pySpace).reverse
          ++ (m.reverse.takeWhile pySpace).reverse) :=
        (words_append_allspace _ hws _).symm
    _ = words m := by rw [← hdecomp]
    _ = words l := words_dropWhile_space l

/-- `concatWords` distributes over list append. -/
lemma concatWords_append : ∀ (a b : List (List Char)),
    concatWords (a ++ b) = concatWords a ++ concatWords b := by
  intro a b
  induction a with
  | nil => rfl
  | cons x r ih => simp [concatWords, ih]

/-- The words of a space-joined list of lists are the concatenated words. -/
lemma words_intercSpace : ∀ (ll : List (List Char)),
    words (intercSpace ll) = concatWords ll := by
  intro ll
  induction ll with
  | nil => rfl
  | cons x r ih =>
    cases r with
    | nil => simp [intercSpace, concatWords]
    | cons y r' =>
      rw [intercSpace, words_append_space (by rfl) x (intercSpace (y :: r')), ih]
      rfl

/-- The regex split only cuts at whitespace runs, so the concatenated words
of the pieces are the words of the input. -/
lemma sentSplitAux_words : ∀ (n : Nat) (l cur : List Char), l.length ≤ n →
    concatWords (sentSplitAux l cur) = words (cur ++ l) := by
  intro n
  induction n with
  | zero =>
    intro l cur hl
    have : l = [] := List.eq_nil_of_length_eq_zero (Nat.le_zero.mp hl)
    subst this
    simp [sentSplitAux, concatWords]
  | succ n ih =>
    intro l cur hl
    cases l with
    | nil => simp [sentSplitAux, concatWords]
    | cons c rest =>
      rw [sentSplitAux]
      by_cases hcond : (pySpace c && sentenceEndLast cur) = true
      · rw [if_pos hcond]
        have hsp : pySpace c = true := (Bool.and_eq_true_iff.mp hcond).1
        have hlen : (rest.dropWhile pySpace).length ≤ n := by
          have h1 := (List.dropWhile_sublist (l := rest) pySpace).length_le
          have h2 : rest.length ≤ n := by
            simpa using Nat.succ_le_succ_iff.mp (by simpa using hl)
          omega
        rw [concatWords, ih (rest.dropWhile pySpace) [] hlen, List.nil_append,
            words_dropWhile_space, words_append_space hsp]
      · rw [if_neg hcond]
        have hlen : rest.length ≤ n := by
          simpa using Nat.succ_le_succ_iff.mp (by simpa using hl)
        rw [ih rest (cur ++ [c]) hlen, List.append_assoc]
        rfl

/-- The chunk buffer invariant: the buffer is empty or ends with the space
appended after each packed sentence. -/
def bufInv (cur : List Char) : Prop := cur = [] ∨ ∃ c₀, cur = c₀ ++ [' ']

/-- Appending a sentence to a buffer satisfying the invariant splits its
word decomposition. -/
lemma words_buf_append {cur : List Char} (hcur : bufInv cur) (s : List Char) :
    words (cur ++ s) = words cur ++ words s := by
  rcases hcur with h | ⟨c₀, h⟩
  · subst h; rfl
  · subst h
    rw [List.append_assoc, List.singleton_append, words_append_space (by rfl),
        words_append_allspace [' '] (by simp [pySpace])]

/-- The greedy packing loop only regroups the sentences: the concatenated
words of the produced chunks are the words of buffer and sentences. -/
lemma chunkAux_words : ∀ (ss : List (List Char)) (cur : List Char)
    (acc : List (List Char)), bufInv cur →
    concatWords (chunkAux ss cur acc)
      = concatWords acc ++ words cur ++ concatWords ss := by
  intro ss
  induction ss with
  | nil =>
    intro cur acc hcur
    rw [chunkAux]
    by_cases h : cur = []
    · rw [if_pos h, h]
      simp [concatWords, words_nil]
    · rw [if_neg h, concatWords_append]
      simp [concatWords, words_pyStripL]
  | cons s rest ih =>
    intro cur acc hcur
    rw [chunkAux]
    by_cases h1 : cur.length + s.length < 120
    · rw [if_pos h1, ih _ _ (Or.inr ⟨cur ++ s, by simp⟩)]
      rw [words_append_allspace [' '] (by simp [pySpace]),
          words_buf_append hcur]
      simp [concatWords]
    · rw [if_neg h1]
      by_cases h2 : cur = []
      · rw [if_pos h2, ih _ _ (Or.inr ⟨s, rfl⟩), h2,
            words_append_allspace [' '] (by simp [pySpace])]
        simp [concatWords, words_nil]
      · rw [if_neg h2, ih _ _ (Or.inr ⟨s, rfl⟩), concatWords_append,
            words_append_allspace [' '] (by simp [pySpace])]
        simp [concatWords, words_pyStripL]

/-- String append acts as list append on the underlying character data. -/
lemma strData_append (a b : String) : (a ++ b).data = a.data ++ b.data := rfl

/-- `joinSpaceStr` on strings is `intercSpace` on the underlying data. -/
lemma joinSpaceStr_data : ∀ (ll : List (List Char)),
    (joinSpaceStr (ll.map (fun l => String.mk l))).data = intercSpace ll := by
  intro ll
  induction ll with
  | nil => rfl
  | cons x r ih =>
    cases r with
    | nil => rfl
    | cons y r' =>
      show (String.mk x ++ " " ++ joinSpaceStr ((y :: r').map (fun l => String.mk l))).data
          = x ++ ' ' :: intercSpace (y :: r')
      rw [strData_append, strData_append, ih, List.append_assoc]
      rfl

/-! ## C6: the chunker preserves the whitespace-collapsed text -/

/-- C6: for every input text, concatenating the Sentence Chunker's output
chunks joined by single spaces and collapsing whitespace yields the same
string as collapsing whitespace in the original text (the chunker only
regroups sentences and renormalizes the whitespace between them). -/
theorem c6_chunks_reconstruct (t : String) :
    collapse_ws (joinSpaceStr (chunk_into_sentences t)) = collapse_ws t := by
  have h1 : words ((joinSpaceStr (chunk_into_sentences t)).data) = words t.data := by
    rw [chunk_into_sentences, joinSpaceStr_data, words_intercSpace,
        chunkAux_words _ _ _ (Or.inl rfl)]
    simp only [concatWords, words_nil, List.nil_append, List.append_nil]
    unfold sentSplit
    rw [sentSplitAux_words (pyStripL t.data).length _ _ (le_refl _), List.nil_append,
        words_pyStripL]
  unfold collapse_ws
  rw [h1]

/-! ## Non-emptiness of chunks -/

/-- The head of a `dropWhile` result does not satisfy the predicate. -/
lemma head_dropWhile_false (p : Char → Bool) :
    ∀ (l : List Char) {c : Char}, (l.dropWhile p).head? = some c → p c = false := by
  intro l
  induction l with
  | nil => intro c h; simp at h
  | cons x r ih =>
    intro c h
    by_cases hx : p x = true
    · rw [List.dropWhile_cons_of_pos hx] at h
      exact ih h
    · rw [List.dropWhile_cons_of_neg hx] at h
      simp only [List.head?_cons, Option.some.injEq] at h
      subst h
      exact Bool.eq_false_iff.mpr hx

/-- A non-empty `dropWhile` result keeps the original last element. -/
lemma getLast_dropWhile (p : Char → Bool) (l : List Char)
    (h : l.dropWhile p ≠ []) : (l.dropWhile p).getLast? = l.getLast? := by
  conv_rhs => rw [← List.takeWhile_append_dropWhile p l]
  rw [List.getLast?_append]
  cases hq : (l.dropWhile p).getLast? with
  | none => exact absurd (List.getLast?_eq_none_iff.mp hq) h
  | some a => rfl

/-- Non-whitespace members survive `dropWhile pySpace`. -/
lemma exists_nonspace_dropWhile :
    ∀ (l : List Char), (∃ c ∈ l, pySpace c = false) →
      ∃ c ∈ l.dropWhile pySpace, pySpace c = false := by
  intro l
  induction l with
  | nil =>
    intro h
    obtain ⟨c, hc, _⟩ := h
    simp at hc
  | cons x r ih =>
    intro h
    obtain ⟨c, hc, hcf⟩ := h
    by_cases hx : pySpace x = true
    · rw [List.dropWhile_cons_of_pos hx]
      apply ih
      rcases List.mem_cons.mp hc with h1 | h1
      · rw [h1] at hcf; rw [hx] at hcf; cases hcf
      · exact ⟨c, h1, hcf⟩
    · rw [List.dropWhile_cons_of_neg hx]
      exact ⟨c, hc, hcf⟩

/-- A list with a non-whitespace member strips to a non-empty list. -/
lemma pyStripL_ne_nil {l : List Char} (h : ∃ c ∈ l, pySpace c = false) :
    pyStripL l ≠ [] := by
  unfold pyStripL
  obtain ⟨c, hc, hcf⟩ := exists_nonspace_dropWhile l h
  have h2 : ∃ x ∈ (l.dropWhile pySpace).reverse, pySpace x = false :=
    ⟨c, List.mem_reverse.mpr hc, hcf⟩
  obtain ⟨d, hd, hdf⟩ := exists_nonspace_dropWhile _ h2
  intro hnil
  rw [List.reverse_eq_nil_iff] at hnil
  rw [hnil] at hd
  simp at hd

/-- The stripped list's head, if any, is non-whitespace. -/
lemma pyStripL_head {l : List Char} {c : Char}
    (h : (pyStripL l).head? = some c) : pySpace c = false := by
  unfold pyStripL at h
  rw [List.head?_reverse] at h
  have hne : (l.dropWhile pySpace).reverse.dropWhile pySpace ≠ [] := by
    intro h0
    rw [h0] at h
    simp at h
  rw [getLast_dropWhile _ _ hne, List.getLast?_reverse] at h
  exact head_dropWhile_false pySpace l h

/-- The stripped list's last element, if any, is non-whitespace. -/
lemma pyStripL_last {l : List Char} {c : Char}
    (h : (pyStripL l).getLast? = some c) : pySpace c = false := by
  unfold pyStripL at h
  rw [List.getLast?_reverse] at h
  exact head_dropWhile_false pySpace _ h

/-- Every piece produced by the regex split of a list whose first and last
characters are non-whitespace contains a non-whitespace character. -/
lemma sentSplitAux_piece_nonspace : ∀ (n : Nat) (l cur : List Char), l.length ≤ n →
    (∀ c, l.getLast? = some c → pySpace c = false) →
    (∀ c, cur.head? = some c → pySpace c = false) →
    (cur = [] → l ≠ []) →
    (cur = [] → ∀ c, l.head? = some c → pySpace c = false) →
    ∀ p ∈ sentSplitAux l cur, ∃ c ∈ p, pySpace c = false := by
  intro n
  induction n with
  | zero =>
    intro l cur hl hlast hcur hne hhead p hp
    have hl0 : l = [] := List.eq_nil_of_length_eq_zero (Nat.le_zero.mp hl)
    subst hl0
    simp only [sentSplitAux, List.mem_singleton] at hp
    subst hp
    cases hc : p.head? with
    | none =>
      rw [List.head?_eq_none_iff] at hc
      exact absurd rfl (fun h => (hne (hc ▸ h)) rfl)
    | some d =>
      exact ⟨d, List.mem_of_mem_head? (by rw [hc]; simp), hcur d hc⟩
  | succ n ih =>
    intro l cur hl hlast hcur hne hhead p hp
    cases l with
    | nil =>
      simp only [sentSplitAux, List.mem_singleton] at hp
      subst hp
      cases hc : p.head? with
      | none =>
        rw [List.head?_eq_none_iff] at hc
        exact absurd hc (hne · rfl)
      | some d =>
        exact ⟨d, List.mem_of_mem_head? (by rw [hc]; simp), hcur d hc⟩
    | cons c rest =>
      rw [sentSplitAux] at hp
      have hlen : rest.length ≤ n := by
        simpa using Nat.succ_le_succ_iff.mp (by simpa using hl)
      by_cases hcond : (pySpace c && sentenceEndLast cur) = true
      · rw [if_pos hcond] at hp
        obtain ⟨hsp, hend⟩ := Bool.and_eq_true_iff.mp hcond
        have hcurne : cur ≠ [] := by
          intro h0
          rw [h0] at hend
          simp [sentenceEndLast] at hend
        have hrestne : rest.dropWhile pySpace ≠ [] := by
          intro h0
          have hall : ∀ x ∈ rest, pySpace x = true := List.dropWhile_eq_nil_iff.mp h0
          cases hr : rest with
          | nil =>
            subst hr
            have : pySpace c = false := hlast c (by simp)
            rw [hsp] at this
            cases this
          | cons r1 r2 =>
            subst hr
            cases hx : (r1 :: r2).getLast? with
            | none => simp at hx
            | some x =>
              have hxr : x ∈ r1 :: r2 := List.mem_of_getLast?_eq_some hx
              have hxs : pySpace x = true := hall x hxr
              have : pySpace x = false := by
                apply hlast
                rw [List.getLast?_cons_cons]
                exact hx
              rw [hxs] at this
              cases this
        rcases List.mem_cons.mp hp with hp1 | hp1
        · subst hp1
          cases hc : p.head? with
          | none => rw [List.head?_eq_none_iff] at hc; exact absurd hc hcurne
          | some d =>
            exact ⟨d, List.mem_of_mem_head? (by rw [hc]; simp), hcur d hc⟩
        · refine ih (rest.dropWhile pySpace) [] ?_ ?_ ?_ ?_ ?_ p hp1
          · have := (List.dropWhile_sublist (l := rest) pySpace).length_le
            omega
          · intro c' hc'
            rw [getLast_dropWhile _ _ hrestne] at hc'
            apply hlast
            cases hr : rest with
            | nil => subst hr; simp [List.dropWhile_nil] at hrestne
            | cons r1 r2 =>
              subst hr
              rw [List.getLast?_cons_cons]
              exact hc'
          · intro c' hc'
            simp at hc'
          · intro _
            exact hrestne
          · intro _ c' hc'
            exact head_dropWhile_false pySpace rest hc'
      · rw [if_neg hcond] at hp
        refine ih rest (cur ++ [c]) hlen ?_ ?_ ?_ ?_ p hp
        · intro c' hc'
          apply hlast
          cases hr : rest with
          | nil => subst hr; simp at hc'
          | cons r1 r2 =>
            subst hr
            rw [List.getLast?_cons_cons]
            exact hc'
        · intro d hd
          cases hcc : cur with
          | nil =>
            subst hcc
            simp only [List.nil_append, List.head?_cons, Option.some.injEq] at hd
            subst hd
            exact hhead rfl c rfl
          | cons e cur' =>
            subst hcc
            simp only [List.cons_append, List.head?_cons, Option.some.injEq] at hd
            subst hd
            exact hcur e rfl
        · intro h0
          exact absurd h0 (by simp)
        · intro h0
          exact absurd h0 (by simp)

/-- If every sentence has a non-whitespace character, every chunk produced
by the packing loop is non-empty. -/
lemma chunkAux_mem_ne_nil : ∀ (ss : List (List Char)) (cur : List Char)
    (acc : List (List Char)),
    (∀ s ∈ ss, ∃ c ∈ s, pySpace c = false) →
    (cur = [] ∨ ∃ c ∈ cur, pySpace c = false) →
    (∀ a ∈ acc, a ≠ []) →
    ∀ a ∈ chunkAux ss cur acc, a ≠ [] := by
  intro ss
  induction ss with
  | nil =>
    intro cur acc hss hcur hacc a ha
    rw [chunkAux] at ha
    by_cases h : cur = []
    · rw [if_pos h] at ha
      exact hacc a ha
    · rw [if_neg h] at ha
      rcases List.mem_append.mp ha with h1 | h1
      · exact hacc a h1
      · simp only [List.mem_singleton] at h1
        subst h1
        rcases hcur with hc | hc
        · exact absurd hc h
        · exact pyStripL_ne_nil hc
  | cons s rest ih =>
    intro cur acc hss hcur hacc a ha
    rw [chunkAux] at ha
    have hs : ∃ c ∈ s, pySpace c = false := hss s (by simp)
    have hrest : ∀ x ∈ rest, ∃ c ∈ x, pySpace c = false :=
      fun x hx => hss x (by simp [hx])
    have hbuf : ∀ (pre : List Char), ∃ c ∈ pre ++ s ++ [' '], pySpace c = false := by
      intro pre
      obtain ⟨c, hc, hcf⟩ := hs
      exact ⟨c, by simp [hc], hcf⟩
    by_cases h1 : cur.length + s.length < 120
    · rw [if_pos h1] at ha
      exact ih _ _ hrest (Or.inr (hbuf cur)) hacc a ha
    · rw [if_neg h1] at ha
      by_cases h2 : cur = []
      · rw [if_pos h2] at ha
        exact ih _ _ hrest (Or.inr (by simpa using hbuf [])) hacc a ha
      · rw [if_neg h2] at ha
        refine ih _ _ hrest (Or.inr (by simpa using hbuf [])) ?_ a ha
        intro b hb
        rcases List.mem_append.mp hb with hb1 | hb1
        · exact hacc b hb1
        · simp only [List.mem_singleton] at hb1
          subst hb1
          rcases hcur with hc | hc
          · exact absurd hc h2
          · exact pyStripL_ne_nil hc

/-- The regex split never produces an empty list of pieces. -/
lemma sentSplitAux_length_pos : ∀ (n : Nat) (l cur : List Char), l.length ≤ n →
    1 ≤ (sentSplitAux l cur).length := by
  intro n
  induction n with
  | zero =>
    intro l cur hl
    have h0 : l = [] := List.eq_nil_of_length_eq_zero (Nat.le_zero.mp hl)
    subst h0
    simp [sentSplitAux]
  | succ n ih =>
    intro l cur hl
    cases l with
    | nil => simp [sentSplitAux]
    | cons c rest =>
      rw [sentSplitAux]
      by_cases hcond : (pySpace c && sentenceEndLast cur) = true
      · rw [if_pos hcond]
        simp
      · rw [if_neg hcond]
        exact ih rest _ (by simpa using Nat.succ_le_succ_iff.mp (by simpa using hl))

/-- Once the buffer or the sentence list is non-empty, the packing loop
produces at least one chunk. -/
lemma chunkAux_length_pos : ∀ (ss : List (List Char)) (cur : List Char)
    (acc : List (List Char)), (cur ≠ [] ∨ ss ≠ []) →
    1 ≤ (chunkAux ss cur acc).length := by
  intro ss
  induction ss with
  | nil =>
    intro cur acc h
    rcases h with h | h
    · rw [chunkAux, if_neg h]
      simp
    · exact absurd rfl h
  | cons s rest ih =>
    intro cur acc _
    rw [chunkAux]
    by_cases h1 : cur.length + s.length < 120
    · rw [if_pos h1]
      exact ih _ _ (Or.inl (by simp))
    · rw [if_neg h1]
      by_cases h2 : cur = []
      · rw [if_pos h2]
        exact ih _ _ (Or.inl (by simp))
      · rw [if_neg h2]
        exact ih _ _ (Or.inl (by simp))

/-! ## C3: the chunker on empty and non-empty inputs (corrected) -/

/-- The chunker's value on the empty string, computed through the equation
lemmas (the split is defined by well-founded recursion, so the kernel does
not evaluate it definitionally). -/
lemma chunk_into_sentences_empty : chunk_into_sentences "" = [""] := by
  have h1 : sentSplitAux ([] : List Char) [] = [[]] := by rw [sentSplitAux]
  have h0 : chunk_into_sentences ""
      = (chunkAux (sentSplitAux [] []) [] []).map (fun l => String.mk l) := rfl
  rw [h0, h1]
  rfl

/-- C3 counterexample: on the empty string the Sentence Chunker returns the
one-element sequence `[""]` — a non-empty sequence whose only element is
the empty chunk — refuting both "empty input yields an empty sequence" and
"no element of the returned sequence is the empty string". -/
theorem c3_counterexample :
    chunk_into_sentences "" = [""] ∧
    chunk_into_sentences "" ≠ [] ∧
    "" ∈ chunk_into_sentences "" := by
  refine ⟨chunk_into_sentences_empty, ?_, ?_⟩
  · rw [chunk_into_sentences_empty]
    decide
  · rw [chunk_into_sentences_empty]
    decide

/-- C3 (amended): on the empty string (and any whitespace-only string) the
chunker returns the one-element sequence `[""]`, not an empty sequence;
for every input that strips to a non-empty string no returned chunk is
empty; and for every input (empty or not) the returned sequence has
length at least 1. -/
theorem c3_chunker_basic :
    chunk_into_sentences "" = [""] ∧
    (∀ t : String, 1 ≤ (chunk_into_sentences t).length) ∧
    (∀ t : String, pyStrip t ≠ "" → "" ∉ chunk_into_sentences t) := by
  refine ⟨chunk_into_sentences_empty, ?_, ?_⟩
  · intro t
    rw [chunk_into_sentences, List.length_map]
    apply chunkAux_length_pos
    right
    intro h0
    have h1 := sentSplitAux_length_pos (pyStripL t.data).length (pyStripL t.data) []
      (le_refl _)
    unfold sentSplit at h0
    rw [h0] at h1
    simp at h1
  · intro t ht hmem
    rw [chunk_into_sentences, List.mem_map] at hmem
    obtain ⟨a, ha, hae⟩ := hmem
    have hl : pyStripL t.data ≠ [] := by
      intro h0
      apply ht
      unfold pyStrip
      rw [h0]
    have hpieces : ∀ p ∈ sentSplit (pyStripL t.data), ∃ c ∈ p, pySpace c = false := by
      apply sentSplitAux_piece_nonspace (pyStripL t.data).length (pyStripL t.data) []
        (le_refl _)
      · intro c hc
        exact pyStripL_last hc
      · intro c hc
        simp at hc
      · intro _
        exact hl
      · intro _ c hc
        exact pyStripL_head hc
    have hane : a ≠ [] :=
      chunkAux_mem_ne_nil _ [] [] hpieces (Or.inl rfl) (by simp) a ha
    apply hane
    have h2 := congrArg String.data hae
    simpa using h2

/-- C3 witness: the amended claim at a concrete non-whitespace input. -/
theorem c3_witness :
    pyStrip "Hello world." ≠ "" ∧
    "" ∉ chunk_into_sentences "Hello world." ∧
    1 ≤ (chunk_into_sentences "Hello world.").length :=
  ⟨by decide, c3_chunker_basic.2.2 "Hello world." (by decide),
    c3_chunker_basic.2.1 "Hello world."⟩

/-! ## C9: an oversized single sentence is one chunk -/

/-- In a boundary-free list, no prefix ends in a sentence-end character
that is immediately followed by whitespace. -/
lemma boundaryFree_no_pair : ∀ (a : List Char) (b : Char) (r : List Char),
    boundaryFree (a ++ b :: r) = true → ∀ x, a.getLast? = some x →
      ¬(sentenceEnd x = true ∧ pySpace b = true) := by
  intro a
  induction a with
  | nil =>
    intro b r _ x hx
    simp at hx
  | cons y a' ih =>
    intro b r h x hx
    cases a' with
    | nil =>
      simp only [List.getLast?_singleton, Option.some.injEq] at hx
      subst hx
      rw [List.singleton_append, boundaryFree, Bool.and_eq_true_iff] at h
      intro hpair
      have h1 := h.1
      rw [hpair.1, hpair.2] at h1
      simp at h1
    | cons z a'' =>
      rw [List.cons_append, List.cons_append, boundaryFree, Bool.and_eq_true_iff] at h
      rw [List.getLast?_cons_cons] at hx
      have h2 := h.2
      rw [← List.cons_append] at h2
      exact ih b r h2 x hx

/-- On boundary-free input, the regex split returns the input as its single
piece. -/
lemma sentSplitAux_boundaryFree : ∀ (n : Nat) (l cur : List Char), l.length ≤ n →
    boundaryFree (cur ++ l) = true → sentSplitAux l cur = [cur ++ l] := by
  intro n
  induction n with
  | zero =>
    intro l cur hl _
    have h0 : l = [] := List.eq_nil_of_length_eq_zero (Nat.le_zero.mp hl)
    subst h0
    rw [sentSplitAux, List.append_nil]
  | succ n ih =>
    intro l cur hl hb
    cases l with
    | nil => rw [sentSplitAux, List.append_nil]
    | cons c rest =>
      rw [sentSplitAux]
      have hcond : (pySpace c && sentenceEndLast cur) = false := by
        cases hq : (pySpace c && sentenceEndLast cur) with
        | false => rfl
        | true =>
          obtain ⟨hsp, hend⟩ := Bool.and_eq_true_iff.mp hq
          unfold sentenceEndLast at hend
          cases hx : cur.getLast? with
          | none => rw [hx] at hend; cases hend
          | some x =>
            rw [hx] at hend
            exact absurd ⟨hend, hsp⟩ (boundaryFree_no_pair cur c rest hb x hx)
      rw [if_neg (by rw [hcond]; simp)]
      have hlen : rest.length ≤ n := by
        simpa using Nat.succ_le_succ_iff.mp (by simpa using hl)
      have hb2 : boundaryFree ((cur ++ [c]) ++ rest) = true := by
        rw [List.append_assoc, List.singleton_append]
        exact hb
      rw [ih rest (cur ++ [c]) hlen hb2, List.append_assoc, List.singleton_append]

/-- Stripping ignores one trailing space. -/
lemma pyStripL_append_space (l : List Char) :
    pyStripL (l ++ [' ']) = pyStripL l := by
  unfold pyStripL
  by_cases h : l.dropWhile pySpace = []
  · have hall : ∀ x ∈ l, pySpace x = true := List.dropWhile_eq_nil_iff.mp h
    have h2 : (l ++ [' ']).dropWhile pySpace = ([' '] : List Char).dropWhile pySpace :=
      List.dropWhile_append_of_pos hall
    rw [h2, h]
    rfl
  · rw [List.dropWhile_append, if_neg (by simpa using h), List.reverse_append]
    have h3 : ([' '] : List Char).reverse = [' '] := rfl
    rw [h3, List.singleton_append, List.dropWhile_cons_of_pos (by decide)]

/-- C9: a text that is its own strip, contains no internal sentence
boundary, and has length at least the 120-character threshold, is returned
by the Sentence Chunker as exactly one chunk containing the whole text —
no truncation, no further splitting. -/
theorem c9_oversized_sentence (t : String) (h1 : pyStrip t = t)
    (h2 : boundaryFree t.data = true) (h3 : 120 ≤ t.data.length) :
    chunk_into_sentences t = [t] := by
  have hd : pyStripL t.data = t.data := by
    have h4 := congrArg String.data h1
    simpa [pyStrip] using h4
  rw [chunk_into_sentences, hd]
  have hsplit : sentSplit t.data = [t.data] := by
    unfold sentSplit
    exact sentSplitAux_boundaryFree t.data.length t.data [] (le_refl _)
      (by simpa using h2)
  rw [hsplit, chunkAux, if_neg (by simp only [List.length_nil]; omega),
      if_pos rfl, chunkAux, if_neg (by simp), pyStripL_append_space, hd]
  simp

set_option maxRecDepth 4096 in
/-- C9 witness: a 130-character boundary-free sentence comes back as one
untruncated chunk. -/
theorem c9_witness :
    pyStrip (String.mk (List.replicate 130 'a')) = String.mk (List.replicate 130 'a') ∧
    boundaryFree (String.mk (List.replicate 130 'a')).data = true ∧
    120 ≤ (String.mk (List.replicate 130 'a')).data.length ∧
    chunk_into_sentences (String.mk (List.replicate 130 'a'))
      = [String.mk (List.replicate 130 'a')] :=
  ⟨by decide, by decide, by decide,
    c9_oversized_sentence _ (by decide) (by decide) (by decide)⟩
